import Mathlib

/-!
Verification of the RuleList ruleset generator (`src/start.py`).

Strings are modelled as `List Char`.  Python `str.splitlines` splits on the
line-boundary characters `\n`, `\r`, `\r\n`, `\x0b`, `\x0c`, `\x1c`, `\x1d`,
`\x1e`, `\x85`, ` `, ` `; `str.strip()` removes the whitespace
characters (those for which `str.isspace()` holds) from both ends.
Effectful parts of the pipeline (file writes, the conversion subprocess, the
thread pools) are modelled by explicit state records and outcome parameters.
-/

namespace RuleList

/-- Strings of the Python program, modelled as lists of characters. -/
abbrev Str := List Char

/-- The single-quote character (code point 39). -/
def sq : Char := Char.ofNat 39

/-- Characters that `str.splitlines` treats as a line boundary. -/
def isLineBreak (c : Char) : Bool :=
  c.toNat = 10 || c.toNat = 13 || c.toNat = 11 || c.toNat = 12 ||
  c.toNat = 28 || c.toNat = 29 || c.toNat = 30 || c.toNat = 133 ||
  c.toNat = 8232 || c.toNat = 8233

/-- Characters for which Python `str.isspace()` holds (stripped by
`str.strip()`): the line-boundary characters together with space, tab and the
Unicode space separators. -/
def isPySpace (c : Char) : Bool :=
  isLineBreak c || c.toNat = 32 || c.toNat = 9 || c.toNat = 160 ||
  c.toNat = 5760 || (8192 ≤ c.toNat && c.toNat ≤ 8202) || c.toNat = 8239 ||
  c.toNat = 8287 || c.toNat = 12288

/-- Prepend a character to the first line of a line list (used by
`splitlines` when the head character is not a line boundary). -/
def consHead (c : Char) : List Str → List Str
  | [] => [[c]]
  | l :: ls => (c :: l) :: ls

/-- Python `str.splitlines()`: split at line boundaries, treating `\r\n` as a
single boundary; a trailing boundary does not produce a final empty line. -/
def splitlines : Str → List Str
  | [] => []
  | '\r' :: '\n' :: rest => [] :: splitlines rest
  | c :: rest =>
    if isLineBreak c then [] :: splitlines rest
    else consHead c (splitlines rest)

/-- Python `str.strip()`: drop whitespace from both ends. -/
def strip (s : Str) : Str :=
  List.rdropWhile isPySpace (List.dropWhile isPySpace s)

/-- Python `"\n".join(lines)`. -/
def joinNL : List Str → Str
  | [] => []
  | [l] => l
  | l :: ls => l ++ '\n' :: joinNL ls

/-- Python `s.startswith('#')`. -/
def startsWithHash : Str → Bool
  | c :: _ => c = '#'
  | [] => false

/-- The filter used by `TextProcessor.remove_comments_and_empty`:
`line.strip() and not line.strip().startswith('#')`. -/
def keepLine (line : Str) : Bool :=
  !(strip line).isEmpty && !startsWithHash (strip line)

/-- `TextProcessor.remove_comments_and_empty` (src/start.py:70-75). -/
def remove_comments_and_empty (text : Str) : Str :=
  joinNL ((splitlines text).filter keepLine)

/-- `TextProcessor.add_prefix_suffix` (src/start.py:77-81). -/
def add_prefix_suffix (text pre suf : Str) : Str :=
  joinNL ((splitlines text).map fun line => pre ++ line ++ suf)

/-- The prefix string of `format_pihole`, Python `"  - '+."`. -/
def piholePre : Str := [' ', ' ', '-', ' ', sq, '+', '.']

/-- The suffix string `"'"` used by both formatting processors. -/
def quoteSuf : Str := [sq]

/-- The prefix string of `format_yaml_list`, Python `"  - '"`. -/
def yamlListPre : Str := [' ', ' ', '-', ' ', sq]

/-- `TextProcessor.format_pihole` (src/start.py:83-86). -/
def format_pihole (text : Str) : Str :=
  add_prefix_suffix text piholePre quoteSuf

/-- `TextProcessor.format_yaml_list` (src/start.py:88-91). -/
def format_yaml_list (text : Str) : Str :=
  add_prefix_suffix text yamlListPre quoteSuf

/-- The processor lookup table built by `_setup_processors`
(src/start.py:151-157). -/
def processors_lookup (nm : Str) : Option (Str → Str) :=
  if nm = ("remove_comments_and_empty".data) then some remove_comments_and_empty
  else if nm = ("format_pihole".data) then some format_pihole
  else if nm = ("format_yaml_list".data) then some format_yaml_list
  else none

/-- The default processor chain used when a source specifies none. -/
def defaultProcessors : List Str := ["remove_comments_and_empty".data]

/-- Python `source.processors or ["remove_comments_and_empty"]`
(src/start.py:250): `None` and the empty list are both falsy, so both select
the default chain. -/
def effectiveProcessors : Option (List Str) → List Str
  | none => defaultProcessors
  | some ps => if ps.isEmpty then defaultProcessors else ps

/-- The processor application loop of `_download_and_process_source`
(src/start.py:251-255): apply each named processor in order; an unknown name
only logs a warning and leaves the content unchanged. -/
def applyProcessors (names : List Str) (content : Str) : Str :=
  names.foldl
    (fun c nm =>
      match processors_lookup nm with
      | some f => f c
      | none => c)
    content

/-- Trailing-newline normalisation of `_download_and_process_source`
(src/start.py:257-259). -/
def ensureTrailingNewline (content : Str) : Str :=
  if !content.isEmpty && content.getLast? ≠ some '\n' then content ++ ['\n']
  else content

/-- The pure content transformation performed by
`_download_and_process_source` on a successfully fetched body
(src/start.py:249-267). -/
def download_and_process_source (ps : Option (List Str)) (raw : Str) : Str :=
  ensureTrailingNewline (applyProcessors (effectiveProcessors ps) raw)

/-- The merge step of `process_task` (src/start.py:298-303): concatenate the
per-source contents in ascending index order, skipping contents that are
blank after stripping. -/
def combineContents (results : List Str) : Str :=
  (results.filter fun c => !(strip c).isEmpty).flatten

/-- Python `sorted(set(lines))` for lists of strings: the distinct elements
in lexicographic order.  (The sorted list of the distinct elements is unique,
so the choice of sorting algorithm is immaterial.) -/
def pySortedSet (l : List Str) : List Str :=
  l.dedup.insertionSort (· ≤ ·)

/-- The body computation of `_write_processed_content` (src/start.py:324-343):
raise `ValueError` on blank content, preserve the first line as a header for
the `yaml` format, and deduplicate and sort the remaining non-blank lines. -/
def mkFinalBody (content : Str) (format_type : Str) : Except Str Str :=
  if (strip content).isEmpty then Except.error ("内容为空".data)
  else
    let lines := splitlines content
    if format_type = ("yaml".data) then
      match lines with
      | [] => Except.error ("YAML内容不能为空".data)
      | header :: rest =>
        Except.ok
          (header ++ '\n' ::
            joinNL (pySortedSet (rest.filter fun line => !(strip line).isEmpty)))
    else
      Except.ok (joinNL (pySortedSet (lines.filter fun line => !(strip line).isEmpty)))

/-- The outcome of one call of `_download_and_process_source`
(src/start.py:236-277): a `Timeout` or `RequestException` that survives the
three `tenacity` attempts escapes as an exception (`hardFail`); every other
path returns `(index, content)`, with unexpected processing errors degraded
to empty content (src/start.py:275-277). -/
inductive FetchOutcome where
  | hardFail
  | fetched (content : Str)
deriving DecidableEq

/-- The content recorded in the `results` dict for a completed fetch. -/
def FetchOutcome.contentOf : FetchOutcome → Str
  | .fetched s => s
  | .hardFail => []

/-- Whether a fetch outcome is an escaping exception. -/
def FetchOutcome.isHardFail : FetchOutcome → Bool
  | .hardFail => true
  | .fetched _ => false

/-- An exception escaping `process_task` (src/start.py:279-322 has no
handler, so these propagate to `run`). -/
inductive TaskError where
  | fetchFailed
  | writeError (msg : Str)
deriving DecidableEq

/-- The result of `process_task` for one task: a list of artifact paths,
`None`, or an escaping exception. -/
inductive TaskResult where
  | done (files : List Str)
  | noArtifacts
  | raised (e : TaskError)
deriving DecidableEq

/-- Whether a task result is an escaping exception. -/
def TaskResult.isRaised : TaskResult → Bool
  | .raised _ => true
  | _ => false

/-- Published text path `output_dir / f"{name}.{format}"` (src/start.py:307),
with the directory left implicit. -/
def finalSourcePath (name fmt : Str) : Str := name ++ '.' :: fmt

/-- Published binary path `output_dir / f"{name}.mrs"` (src/start.py:308). -/
def finalMrsPath (name : Str) : Str := name ++ (".mrs".data)

/-- `RulesetGenerator.process_task` (src/start.py:279-322).  The fetch loop
calls `future.result()` on every source future, so an exception from any
source re-raises there and escapes `process_task`; otherwise the contents
are merged in ascending index order, `_write_processed_content` may raise
`ValueError`, and `_convert_to_mrs` (abstracted here by its boolean result
`convertOk`) decides between the artifact list and `None`. -/
def process_task (name fmt : Str) (outcomes : List FetchOutcome)
    (convertOk : Bool) : TaskResult :=
  if outcomes.any FetchOutcome.isHardFail then .raised .fetchFailed
  else
    let combined := combineContents (outcomes.map FetchOutcome.contentOf)
    match mkFinalBody combined fmt with
    | .error msg => .raised (.writeError msg)
    | .ok _ =>
      if convertOk then .done [finalSourcePath name fmt, finalMrsPath name]
      else .noArtifacts

/-- The completion-order model of the fetch loop (src/start.py:290-303):
`as_completed` yields `(index, content)` pairs in an arbitrary arrival
order, the dict maps each index to its content, and the merge iterates over
`sorted(results.keys())`.  With distinct indices this equals sorting the
arrival list by index and concatenating the contents. -/
def combineArrivals (arrivals : List (Nat × Str)) : Str :=
  combineContents
    ((arrivals.insertionSort fun a b => a.1 ≤ b.1).map Prod.snd)

/-- `RulesetGenerator._validate_generated_files` (src/start.py:485-504):
false on an empty list, otherwise every file must exist with positive size.
The filesystem is abstracted by `fsSize`, mapping a path to the size of the
file there (`none` when absent). -/
def validate_generated_files (fsSize : Str → Option Nat) (files : List Str) :
    Bool :=
  if files.isEmpty then false
  else files.all fun p =>
    match fsSize p with
    | some n => decide (0 < n)
    | none => false

/-- How a run ends (src/start.py:446-483): `commit_changes` invoked,
`sys.exit(1)` after a failed file check, or a task exception re-raised by
`future.result()` in the task loop (src/start.py:467), which also skips the
commit and exits non-zero. -/
inductive RunOutcome where
  | published
  | exitNonzero
  | raisedOut
deriving DecidableEq

/-- The aggregation loop of `run` (src/start.py:465-473): artifact paths of
successful tasks are appended; `None` results only log a warning. -/
def collectFiles (taskResults : List TaskResult) : List Str :=
  taskResults.foldl
    (fun acc r =>
      match r with
      | .done fs => acc ++ fs
      | _ => acc)
    []

/-- `RulesetGenerator.run` after the tasks complete (src/start.py:455-481):
any task exception escapes via `future.result()`; otherwise the collected
files are validated and the run either commits or exits non-zero. -/
def runPipeline (fsSize : Str → Option Nat) (taskResults : List TaskResult) :
    RunOutcome :=
  if taskResults.any TaskResult.isRaised then .raisedOut
  else if validate_generated_files fsSize (collectFiles taskResults) then
    .published
  else .exitNonzero

/-- The two files touched by the staged write: the staging path
`work_dir / f"{name}.{format}"` and its `.tmp` sibling. -/
structure StageFS where
  staged : Option Str
  tmp : Option Str
deriving DecidableEq

/-- How the write attempt of `_write_processed_content` ends
(src/start.py:345-353): `write_text` plus `replace` both succeed; or
`write_text` raises after putting a partial body in the temp file; or the
`replace` raises leaving the target untouched (a rename is atomic). -/
inductive WriteOutcome where
  | success
  | failWrite (part : Str)
  | failReplace
deriving DecidableEq

/-- `RulesetGenerator._write_processed_content` (src/start.py:324-353): the
body is computed (raising `ValueError` on blank content before any file is
touched), written to the `.tmp` sibling and renamed over the staging path;
on any exception during the write the temp file is unlinked and the
exception propagates (`Except.error` carries the resulting filesystem). -/
def write_processed_content (fs : StageFS) (content fmt : Str)
    (oc : WriteOutcome) : Except StageFS (Str × StageFS) :=
  match mkFinalBody content fmt with
  | .error _ => .error fs
  | .ok body =>
    match oc with
    | .success => .ok (body, { staged := some body, tmp := none })
    | .failWrite _ => .error { staged := fs.staged, tmp := none }
    | .failReplace => .error { staged := fs.staged, tmp := none }

/-- The staging-path content after a write attempt. -/
def stagedAfter : Except StageFS (Str × StageFS) → Option Str
  | .ok (_, fs2) => fs2.staged
  | .error fs2 => fs2.staged

/-- The files of one task touched by `_convert_to_mrs`: the staged text at
`work_dir`, the temporary binary at `work_dir / f"{name}.mrs"`, and the two
published locations in `output_dir`; plus whether the mihomo tool exists. -/
structure ConvFS where
  mihomoPresent : Bool
  stagedText : Option Str
  tempMrs : Option Str
  finalText : Option Str
  finalMrs : Option Str
deriving DecidableEq

/-- How the two `shutil.move` calls of `_convert_to_mrs` end when reached:
both succeed, the first raises `OSError` (nothing moved), or the second
raises (text already moved). -/
inductive MoveOutcome where
  | moved
  | firstFails
  | secondFails
deriving DecidableEq

/-- `RulesetGenerator._convert_to_mrs` (src/start.py:355-397).  The
subprocess is abstracted by its exit code and the contents it leaves at the
temporary binary path (`produced`, `none` when no file was written).  A
non-zero exit raises `CalledProcessError`, caught to return `False`; a
missing or empty binary returns `False`; only then are the staged text and
the binary moved to the published locations. -/
def convert_to_mrs (fs : ConvFS) (exitCode : Nat) (produced : Option Str)
    (mv : MoveOutcome) : Bool × ConvFS :=
  if !fs.mihomoPresent then (false, fs)
  else
    let fs1 : ConvFS := { fs with tempMrs := produced }
    if exitCode ≠ 0 then (false, fs1)
    else
      match produced with
      | none => (false, fs1)
      | some body =>
        if body.isEmpty then (false, fs1)
        else
          match mv with
          | .firstFails => (false, fs1)
          | .secondFails =>
            (false, { fs1 with stagedText := none, finalText := fs.stagedText })
          | .moved =>
            (true,
              { fs1 with
                stagedText := none
                tempMrs := none
                finalText := fs.stagedText
                finalMrs := some body })

example : splitlines ("a\n\nb".data) = ["a".data, [], "b".data] := by decide
example : splitlines ("a\r\nb\n".data) = ["a".data, "b".data] := by decide
example : splitlines [] = [] := by decide
example : splitlines ("\n".data) = [[]] := by decide
example : strip ("  a b \t".data) = "a b".data := by decide
example : remove_comments_and_empty ("a\n # c\n\nb".data) = "a\nb".data := by decide
example : format_pihole ("x".data) = "  - ".data ++ sq :: "+.x".data ++ [sq] := by decide
example : pySortedSet ["b".data, "a".data, "b".data] = ["a".data, "b".data] := by decide
example : mkFinalBody ("b\na\nb\n".data) ("list".data) = Except.ok ("a\nb".data) := by rfl
example : mkFinalBody ("h\nb\na\nb\n".data) ("yaml".data) = Except.ok ("h\na\nb".data) := by rfl
example : mkFinalBody (" \n".data) ("list".data) = Except.error ("内容为空".data) := by rfl

/-- Rewriting `splitlines` at a line-boundary head other than a `\r\n` pair. -/
theorem splitlines_cons_break {c : Char} {s : Str}
    (hne : ∀ r : List Char, c = '\x0d' → s = '\n' :: r → False)
    (hbr : isLineBreak c = true) :
    splitlines (c :: s) = [] :: splitlines s := by
  rw [splitlines.eq_def]
  split
  · simp_all
  · rename_i heq
    obtain ⟨h1, h2⟩ := List.cons.inj heq
    exact (hne _ h1 h2).elim
  · rename_i heq
    obtain ⟨h1, h2⟩ := List.cons.inj heq
    subst h1; subst h2
    simp [hbr]

/-- Rewriting `splitlines` at a non-boundary head. -/
theorem splitlines_cons_nonbreak {c : Char} {s : Str}
    (h : isLineBreak c = false) :
    splitlines (c :: s) = consHead c (splitlines s) := by
  rw [splitlines.eq_def]
  split
  · simp_all
  · rename_i heq
    obtain ⟨h1, h2⟩ := List.cons.inj heq
    subst h1
    simp [isLineBreak] at h
  · rename_i heq
    obtain ⟨h1, h2⟩ := List.cons.inj heq
    subst h1; subst h2
    simp [h]

/-- `consHead` never produces the empty line list. -/
theorem consHead_ne_nil (c : Char) (ls : List Str) : consHead c ls ≠ [] := by
  cases ls <;> simp [consHead]

/-- Lines produced by `splitlines` contain no line-boundary characters. -/
theorem mem_splitlines_no_break {s : Str} :
    ∀ l ∈ splitlines s, ∀ c ∈ l, isLineBreak c = false := by
  induction s using splitlines.induct with
  | case1 => intro l hl; simp [splitlines] at hl
  | case2 rest ih =>
    intro l hl c hc
    rw [show splitlines ('\x0d' :: '\n' :: rest) = [] :: splitlines rest from
      rfl] at hl
    rcases List.mem_cons.mp hl with rfl | hl
    · simp at hc
    · exact ih l hl c hc
  | case3 c0 rest hne hbr ih =>
    intro l hl c hc
    rw [splitlines_cons_break (fun r h1 h2 => hne r h1 h2) hbr] at hl
    rcases List.mem_cons.mp hl with rfl | hl
    · simp at hc
    · exact ih l hl c hc
  | case4 c0 rest hne hbr ih =>
    intro l hl c hc
    rw [splitlines_cons_nonbreak (Bool.not_eq_true _ ▸ hbr)] at hl
    cases hs : splitlines rest with
    | nil =>
      rw [hs] at hl
      simp [consHead] at hl
      subst hl
      rcases List.mem_singleton.mp hc with rfl
      exact Bool.not_eq_true _ ▸ hbr
    | cons m ms =>
      rw [hs] at hl
      simp only [consHead] at hl
      rcases List.mem_cons.mp hl with rfl | hl
      · rcases List.mem_cons.mp hc with rfl | hc2
        · exact Bool.not_eq_true _ ▸ hbr
        · exact ih m (hs ▸ List.mem_cons_self m ms) c hc2
      · exact ih l (hs ▸ List.mem_cons_of_mem m hl) c hc

/-- A non-empty boundary-free string is a single line. -/
theorem splitlines_of_no_break {a : Str} (ha : a ≠ [])
    (h : ∀ c ∈ a, isLineBreak c = false) : splitlines a = [a] := by
  induction a with
  | nil => exact absurd rfl ha
  | cons c rest ih =>
    rw [splitlines_cons_nonbreak (h c (List.mem_cons_self c rest))]
    cases rest with
    | nil => rfl
    | cons d t =>
      rw [ih (by simp) (fun x hx => h x (List.mem_cons_of_mem _ hx))]
      rfl

/-- Splitting a string that begins with a boundary-free line and an
explicit `\n`. -/
theorem splitlines_append_lf {a : Str}
    (h : ∀ c ∈ a, isLineBreak c = false) (s : Str) :
    splitlines (a ++ '\n' :: s) = a :: splitlines s := by
  induction a with
  | nil => rfl
  | cons c rest ih =>
    rw [List.cons_append,
      splitlines_cons_nonbreak (h c (List.mem_cons_self c rest)),
      ih (fun x hx => h x (List.mem_cons_of_mem _ hx))]
    rfl

/-- `splitlines` yields no lines only for the empty string. -/
theorem splitlines_ne_nil {s : Str} (hs : s ≠ []) : splitlines s ≠ [] := by
  rw [splitlines.eq_def]
  split
  · simp_all
  · simp
  · split
    · simp
    · exact consHead_ne_nil _ _

/-- Joining non-empty boundary-free lines and re-splitting is the
identity. -/
theorem splitlines_joinNL {ls : List Str}
    (h : ∀ l ∈ ls, l ≠ [] ∧ ∀ c ∈ l, isLineBreak c = false) :
    splitlines (joinNL ls) = ls := by
  induction ls with
  | nil => rfl
  | cons a t ih =>
    cases t with
    | nil =>
      exact splitlines_of_no_break (h a (List.mem_cons_self a [])).1
        (h a (List.mem_cons_self a [])).2
    | cons b t2 =>
      rw [show joinNL (a :: b :: t2) = a ++ '\n' :: joinNL (b :: t2) from rfl,
        splitlines_append_lf (h a (List.mem_cons_self a _)).2,
        ih (fun l hl => h l (List.mem_cons_of_mem _ hl))]

/-- `strip` is empty exactly when every character is whitespace. -/
theorem strip_eq_nil_iff {s : Str} :
    strip s = [] ↔ ∀ c ∈ s, isPySpace c = true := by
  unfold strip
  rw [List.rdropWhile_eq_nil_iff]
  constructor
  · intro h c hc
    have hsplit := List.takeWhile_append_dropWhile (p := isPySpace) (l := s)
    rcases List.mem_append.mp (hsplit ▸ hc) with h1 | h2
    · exact List.mem_takeWhile_imp h1
    · exact h c h2
  · intro h c hc
    exact h c ((List.dropWhile_sublist _).subset hc)

/-- A string with a non-whitespace character does not strip to empty. -/
theorem strip_ne_nil_of_mem {s : Str} {c : Char} (hc : c ∈ s)
    (h : isPySpace c = false) : strip s ≠ [] := by
  intro hn
  have := strip_eq_nil_iff.mp hn c hc
  simp [h] at this

/-- A string that does not strip to empty is itself non-empty. -/
theorem ne_nil_of_strip_ne_nil {s : Str} (h : strip s ≠ []) : s ≠ [] := by
  intro hn
  subst hn
  exact h rfl

/-- Rewriting `joinNL` on a two-or-more-element list. -/
theorem joinNL_cons_cons (a b : Str) (t : List Str) :
    joinNL (a :: b :: t) = a ++ '\n' :: joinNL (b :: t) := rfl

/-- A join equal to a single non-newline character comes from exactly that
single one-character line. -/
theorem joinNL_eq_single {ls : List Str} {c : Char} (hc : c ≠ '\n')
    (h : joinNL ls = [c]) : ls = [[c]] := by
  cases ls with
  | nil => simp [joinNL] at h
  | cons a t =>
    cases t with
    | nil => rw [show joinNL [a] = a from rfl] at h; rw [h]
    | cons b t2 =>
      rw [joinNL_cons_cons] at h
      cases a with
      | nil =>
        rw [List.nil_append] at h
        exact absurd (List.cons.inj h).1 (fun he => hc he.symm)
      | cons x xs =>
        rw [List.cons_append] at h
        have := (List.cons.inj h).2
        simp at this

/-- Membership in `pySortedSet` is membership in the input list. -/
theorem mem_pySortedSet {l : Str} {xs : List Str} :
    l ∈ pySortedSet xs ↔ l ∈ xs := by
  unfold pySortedSet
  rw [(List.perm_insertionSort _ _).mem_iff, List.mem_dedup]

/-- `pySortedSet` has no duplicates. -/
theorem pySortedSet_nodup (xs : List Str) : (pySortedSet xs).Nodup :=
  (List.perm_insertionSort _ _).nodup_iff.mpr (List.nodup_dedup xs)

/-- `pySortedSet` is sorted lexicographically. -/
theorem pySortedSet_sorted (xs : List Str) :
    (pySortedSet xs).Sorted (· ≤ ·) :=
  List.sorted_insertionSort _ _

/-- Unfolding one step of the processor loop. -/
theorem applyProcessors_cons (nm : Str) (rest : List Str) (c : Str) :
    applyProcessors (nm :: rest) c =
      applyProcessors rest
        (match processors_lookup nm with
         | some f => f c
         | none => c) := rfl

/-- The processor loop equals folding the resolved transforms in declared
order: unknown names are skipped, known ones are applied left to right. -/
theorem applyProcessors_filterMap (names : List Str) (content : Str) :
    applyProcessors names content =
      (names.filterMap processors_lookup).foldl (fun c f => f c) content := by
  induction names generalizing content with
  | nil => rfl
  | cons nm rest ih =>
    rw [applyProcessors_cons, List.filterMap_cons]
    cases hl : processors_lookup nm with
    | none => exact ih content
    | some f => exact ih (f content)

/-- A chain of exclusively unknown names leaves the content unchanged. -/
theorem applyProcessors_id_of_unknown {names : List Str}
    (h : ∀ nm ∈ names, processors_lookup nm = none) (content : Str) :
    applyProcessors names content = content := by
  induction names with
  | nil => rfl
  | cons nm rest ih =>
    rw [applyProcessors_cons, h nm (List.mem_cons_self nm rest)]
    exact ih (fun x hx => h x (List.mem_cons_of_mem _ hx))

/-- `remove_comments_and_empty` never returns the one-character string
`"#"`: such a line would have had to pass its own comment filter. -/
theorem remove_comments_and_empty_ne_hash (y : Str) :
    remove_comments_and_empty y ≠ ['#'] := by
  intro h
  unfold remove_comments_and_empty at h
  have h2 := joinNL_eq_single (by decide) h
  have hmem : ('#' :: []) ∈ (splitlines y).filter keepLine := by
    rw [h2]; exact List.mem_singleton.mpr rfl
  have hk := List.of_mem_filter hmem
  exact absurd hk (by decide)

/-- `add_prefix_suffix` with a prefix of two or more characters never
returns a one-character string. -/
theorem add_prefix_suffix_ne_hash {pre suf : Str} (hlen : 2 ≤ pre.length)
    (y : Str) : add_prefix_suffix y pre suf ≠ ['#'] := by
  intro h
  unfold add_prefix_suffix at h
  have h2 := joinNL_eq_single (by decide) h
  have hmem : ('#' :: []) ∈ (splitlines y).map fun l => pre ++ l ++ suf := by
    rw [h2]; exact List.mem_singleton.mpr rfl
  obtain ⟨l, _, hl⟩ := List.mem_map.mp hmem
  have hlength := congrArg List.length hl
  simp only [List.length_append, List.length_cons, List.length_nil] at hlength
  omega

/-- Every processor in the lookup table moves the string `"#"`. -/
theorem processors_lookup_ne_hash {nm : Str} {f : Str → Str}
    (h : processors_lookup nm = some f) (y : Str) : f y ≠ ['#'] := by
  unfold processors_lookup at h
  split_ifs at h
  · cases h; exact remove_comments_and_empty_ne_hash y
  · cases h; exact add_prefix_suffix_ne_hash (by decide) y
  · cases h; exact add_prefix_suffix_ne_hash (by decide) y

/-- A chain containing at least one known processor name cannot map `"#"`
to itself. -/
theorem applyProcessors_ne_hash {names : List Str} (c : Str)
    (h : ∃ nm ∈ names, (processors_lookup nm).isSome) :
    applyProcessors names c ≠ ['#'] := by
  induction names generalizing c with
  | nil => simp at h
  | cons nm rest ih =>
    obtain ⟨nm0, hmem, hsome⟩ := h
    by_cases hr : ∃ x ∈ rest, (processors_lookup x).isSome
    · rw [applyProcessors_cons]
      exact ih _ hr
    · have hnm : (processors_lookup nm).isSome := by
        rcases List.mem_cons.mp hmem with rfl | hmem2
        · exact hsome
        · exact absurd ⟨nm0, hmem2, hsome⟩ hr
      obtain ⟨f, hf⟩ := Option.isSome_iff_exists.mp hnm
      have hrest : ∀ x ∈ rest, processors_lookup x = none := by
        intro x hx
        cases hopt : processors_lookup x with
        | none => rfl
        | some g => exact absurd ⟨x, hx, by simp [hopt]⟩ hr
      rw [applyProcessors_cons, hf, applyProcessors_id_of_unknown hrest]
      exact processors_lookup_ne_hash hf c

/-- A source whose stripped content is non-blank keeps the merged
concatenation non-blank. -/
theorem combineContents_strip_ne {results : List Str} {o : Str}
    (ho : o ∈ results) (hne : strip o ≠ []) :
    strip (combineContents results) ≠ [] := by
  have hex : ∃ c ∈ o, isPySpace c = false := by
    by_contra hall
    push_neg at hall
    exact hne (strip_eq_nil_iff.mpr
      (fun c hc => by
        have := hall c hc
        revert this
        cases isPySpace c <;> simp))
  obtain ⟨c, hc, hcs⟩ := hex
  apply strip_ne_nil_of_mem _ hcs
  unfold combineContents
  apply List.mem_flatten_of_mem _ hc
  apply List.mem_filter.mpr
  refine ⟨ho, ?_⟩
  simp [List.isEmpty_iff, hne]

/-- If every source content strips to blank, the merge is empty. -/
theorem combineContents_all_blank {results : List Str}
    (h : ∀ o ∈ results, strip o = []) : combineContents results = [] := by
  unfold combineContents
  have hfil : results.filter (fun c => !(strip c).isEmpty) = [] := by
    rw [List.filter_eq_nil_iff]
    intro a ha
    simp [List.isEmpty_iff, h a ha]
  rw [hfil]
  rfl

/-- Pairwise key-sortedness plus distinct keys gives strict key
sortedness. -/
theorem pairwise_key_lt {l : List (Nat × Str)}
    (hs : l.Pairwise fun a b => a.1 ≤ b.1)
    (hn : (l.map Prod.fst).Nodup) :
    l.Pairwise fun a b => a.1 < b.1 := by
  have hne : l.Pairwise (fun a b => a.1 ≠ b.1) := List.pairwise_map.mp hn
  exact (hs.and hne).imp fun h => Nat.lt_of_le_of_ne h.1 h.2

/-- Sorting by key is determined by the multiset of pairs when the keys are
distinct: the arrival order of the `(index, content)` pairs is
irrelevant. -/
theorem insertionSort_key_eq {arr1 arr2 : List (Nat × Str)}
    (hperm : List.Perm arr1 arr2) (hkeys : (arr1.map Prod.fst).Nodup) :
    arr1.insertionSort (fun a b => a.1 ≤ b.1) =
      arr2.insertionSort (fun a b => a.1 ≤ b.1) := by
  haveI : IsTotal (Nat × Str) (fun a b => a.1 ≤ b.1) :=
    ⟨fun a b => Nat.le_total _ _⟩
  haveI : IsTrans (Nat × Str) (fun a b => a.1 ≤ b.1) :=
    ⟨fun _ _ _ h1 h2 => Nat.le_trans h1 h2⟩
  haveI : IsAntisymm (Nat × Str) (fun a b : Nat × Str => a.1 < b.1) :=
    ⟨fun _ _ h1 h2 => absurd (Nat.lt_trans h1 h2) (Nat.lt_irrefl _)⟩
  have hp1 := List.perm_insertionSort (fun a b : Nat × Str => a.1 ≤ b.1) arr1
  have hp2 := List.perm_insertionSort (fun a b : Nat × Str => a.1 ≤ b.1) arr2
  have hkeys1 : ((arr1.insertionSort fun a b => a.1 ≤ b.1).map
      Prod.fst).Nodup :=
    ((hp1.map Prod.fst).nodup_iff).mpr hkeys
  have hkeys2 : ((arr2.insertionSort fun a b => a.1 ≤ b.1).map
      Prod.fst).Nodup :=
    ((hp2.map Prod.fst).nodup_iff).mpr
      (((hperm.map Prod.fst).nodup_iff).mp hkeys)
  exact List.eq_of_perm_of_sorted
    (r := fun a b : Nat × Str => a.1 < b.1)
    (hp1.trans (hperm.trans hp2.symm))
    (pairwise_key_lt (List.sorted_insertionSort _ arr1) hkeys1)
    (pairwise_key_lt (List.sorted_insertionSort _ arr2) hkeys2)

/-- The merged content does not depend on the completion order of the
source fetches. -/
theorem combineArrivals_perm {arr1 arr2 : List (Nat × Str)}
    (hperm : List.Perm arr1 arr2) (hkeys : (arr1.map Prod.fst).Nodup) :
    combineArrivals arr1 = combineArrivals arr2 := by
  unfold combineArrivals
  rw [insertionSort_key_eq hperm hkeys]

/-- `mkFinalBody` on blank content raises the `ValueError`. -/
theorem mkFinalBody_blank {content fmt : Str} (h : strip content = []) :
    mkFinalBody content fmt = Except.error ("内容为空".data) := by
  unfold mkFinalBody
  simp [h]

/-- `mkFinalBody` for a header-less format. -/
theorem mkFinalBody_not_yaml {content fmt : Str}
    (hfmt : fmt ≠ ("yaml".data)) (h : strip content ≠ []) :
    mkFinalBody content fmt =
      Except.ok (joinNL (pySortedSet
        ((splitlines content).filter fun l => !(strip l).isEmpty))) := by
  unfold mkFinalBody
  simp [List.isEmpty_iff, h, hfmt]

/-- `mkFinalBody` for the `yaml` format. -/
theorem mkFinalBody_yaml {content header : Str} {rest : List Str}
    (h : strip content ≠ []) (hsplit : splitlines content = header :: rest) :
    mkFinalBody content ("yaml".data) =
      Except.ok (header ++ '\n' ::
        joinNL (pySortedSet (rest.filter fun l => !(strip l).isEmpty))) := by
  unfold mkFinalBody
  simp [List.isEmpty_iff, h, hsplit]

/-- Splitting a staged body built from boundary-free non-blank lines
recovers exactly the sorted deduplicated lines. -/
theorem splitlines_joinNL_pySortedSet {lines0 : List Str}
    (hbf : ∀ l ∈ lines0, ∀ c ∈ l, isLineBreak c = false) :
    splitlines (joinNL (pySortedSet
        (lines0.filter fun l => !(strip l).isEmpty))) =
      pySortedSet (lines0.filter fun l => !(strip l).isEmpty) := by
  apply splitlines_joinNL
  intro l hl
  have hl2 := mem_pySortedSet.mp hl
  obtain ⟨hmem, hkeep⟩ := List.mem_filter.mp hl2
  refine ⟨?_, hbf l hmem⟩
  intro hnil
  subst hnil
  simp [strip] at hkeep

/-- Dropping a blank source content anywhere in the list leaves the merged
concatenation unchanged. -/
theorem combineContents_drop_blank {c : Str} (h : strip c = [])
    (pre post : List Str) :
    combineContents (pre ++ c :: post) = combineContents (pre ++ post) := by
  unfold combineContents
  rw [List.filter_append, List.filter_append, List.filter_cons]
  simp [List.isEmpty_iff, h]

/-- Non-blank content always yields a staged body, for every format. -/
theorem mkFinalBody_isOk (fmt : Str) {content : Str} (h : strip content ≠ []) :
    ∃ body, mkFinalBody content fmt = Except.ok body := by
  by_cases hfmt : fmt = ("yaml".data)
  · subst hfmt
    obtain ⟨hd, tl, hsplit⟩ : ∃ hd tl, splitlines content = hd :: tl := by
      cases hs : splitlines content with
      | nil => exact absurd hs (splitlines_ne_nil (ne_nil_of_strip_ne_nil h))
      | cons a t => exact ⟨a, t, rfl⟩
    exact ⟨_, mkFinalBody_yaml h hsplit⟩
  · exact ⟨_, mkFinalBody_not_yaml hfmt h⟩

/-- With no escaping fetch exception, `process_task` reduces to the merge,
write and convert stages. -/
theorem process_task_of_no_hard {outcomes : List FetchOutcome}
    (h : FetchOutcome.hardFail ∉ outcomes) (name fmt : Str)
    (convertOk : Bool) :
    process_task name fmt outcomes convertOk =
      match mkFinalBody
          (combineContents (outcomes.map FetchOutcome.contentOf)) fmt with
      | .error msg => .raised (.writeError msg)
      | .ok _ =>
        if convertOk then
          .done [finalSourcePath name fmt, finalMrsPath name]
        else .noArtifacts := by
  unfold process_task
  rw [if_neg]
  intro hany
  obtain ⟨o, ho, hh⟩ := List.any_eq_true.mp hany
  cases o with
  | hardFail => exact h ho
  | fetched s => simp [FetchOutcome.isHardFail] at hh

/-- With an escaping fetch exception among the sources, `process_task`
re-raises it. -/
theorem process_task_of_hard {outcomes : List FetchOutcome}
    (h : FetchOutcome.hardFail ∈ outcomes) (name fmt : Str)
    (convertOk : Bool) :
    process_task name fmt outcomes convertOk =
      TaskResult.raised TaskError.fetchFailed := by
  unfold process_task
  rw [if_pos]
  exact List.any_eq_true.mpr ⟨FetchOutcome.hardFail, h, rfl⟩

/-- C8: transforms of a source's chain are applied in the declared order
(folding the resolved transforms left to right), a chain entry missing from
the processor lookup table leaves the content unchanged for that step, and
a source with no chain gets the default chain
`[remove_comments_and_empty]`. -/
theorem claim8_transform_chain :
    (∀ names content, applyProcessors names content =
        (names.filterMap processors_lookup).foldl (fun c f => f c) content) ∧
    (∀ nm, processors_lookup nm = none →
      ∀ pre post content,
        applyProcessors (pre ++ nm :: post) content =
          applyProcessors (pre ++ post) content) ∧
    effectiveProcessors none = ["remove_comments_and_empty".data] := by
  refine ⟨applyProcessors_filterMap, ?_, rfl⟩
  intro nm hnm pre post content
  rw [applyProcessors_filterMap, applyProcessors_filterMap,
    List.filterMap_append, List.filterMap_append, List.filterMap_cons, hnm]

/-- Witness for C8: the unknown name `bogus` is skipped by the chain. -/
theorem claim8_transform_chain_witness :
    applyProcessors ([] ++ ("bogus".data) :: []) ("x".data) =
      applyProcessors ([] ++ []) ("x".data) :=
  claim8_transform_chain.2.1 ("bogus".data) rfl [] [] ("x".data)

/-- C9: `remove_comments_and_empty` is idempotent: dropping blank lines and
lines whose trimmed form starts with `#` a second time changes nothing. -/
theorem claim9_remove_comments_idempotent (s : Str) :
    remove_comments_and_empty (remove_comments_and_empty s) =
      remove_comments_and_empty s := by
  unfold remove_comments_and_empty
  have hlines : ∀ l ∈ (splitlines s).filter keepLine,
      l ≠ [] ∧ ∀ c ∈ l, isLineBreak c = false := by
    intro l hl
    obtain ⟨hmem, hkeep⟩ := List.mem_filter.mp hl
    refine ⟨?_, mem_splitlines_no_break l hmem⟩
    intro hnil
    subst hnil
    exact absurd hkeep (by decide)
  rw [splitlines_joinNL hlines, List.filter_filter]
  simp only [Bool.and_self]

/-- C10: an explicitly empty processor list is falsy in Python, so it
selects the default chain exactly like an absent one; and the only chains
acting as the identity are those made exclusively of unknown names — any
chain containing a known processor moves the string `"#"`. -/
theorem claim10_empty_chain_default :
    effectiveProcessors (some []) = ["remove_comments_and_empty".data] ∧
    effectiveProcessors (some []) = effectiveProcessors none ∧
    (∀ names, (∀ nm ∈ names, processors_lookup nm = none) →
      ∀ content, applyProcessors names content = content) ∧
    (∀ names, (∃ nm ∈ names, (processors_lookup nm).isSome) →
      applyProcessors names ['#'] ≠ ['#']) := by
  refine ⟨rfl, rfl, ?_, ?_⟩
  · intro names h content
    exact applyProcessors_id_of_unknown h content
  · intro names h
    exact applyProcessors_ne_hash ['#'] h

/-- Witness for C10: a chain consisting of the known `format_pihole` is not
the identity on `"#"`. -/
theorem claim10_empty_chain_default_witness :
    applyProcessors ["format_pihole".data] ['#'] ≠ ['#'] :=
  claim10_empty_chain_default.2.2.2 ["format_pihole".data]
    ⟨"format_pihole".data, List.mem_singleton.mpr rfl, rfl⟩

/-- C4: for a header-less format the staged body's lines are exactly the
distinct non-blank lines of the merged concatenation (blank contents
skipped, ascending index order), each exactly once, lexicographically
sorted; and the merged content is invariant under the completion order of
the `(index, content)` arrivals. -/
theorem claim4_merge_dedup_sorted :
    (∀ results fmt, fmt ≠ ("yaml".data) →
      strip (combineContents results) ≠ [] →
      ∃ body,
        mkFinalBody (combineContents results) fmt = Except.ok body ∧
        (∀ l, l ∈ splitlines body ↔
          (l ∈ splitlines (combineContents results) ∧ strip l ≠ [])) ∧
        (splitlines body).Nodup ∧
        (splitlines body).Sorted (· ≤ ·)) ∧
    (∀ arr1 arr2 : List (Nat × Str), List.Perm arr1 arr2 →
      (arr1.map Prod.fst).Nodup →
      combineArrivals arr1 = combineArrivals arr2) := by
  constructor
  · intro results fmt hfmt hne
    refine ⟨_, mkFinalBody_not_yaml hfmt hne, ?_, ?_, ?_⟩
    · rw [splitlines_joinNL_pySortedSet
        (fun l hl => mem_splitlines_no_break l hl)]
      intro l
      rw [mem_pySortedSet, List.mem_filter]
      simp [List.isEmpty_iff]
    · rw [splitlines_joinNL_pySortedSet
        (fun l hl => mem_splitlines_no_break l hl)]
      exact pySortedSet_nodup _
    · rw [splitlines_joinNL_pySortedSet
        (fun l hl => mem_splitlines_no_break l hl)]
      exact pySortedSet_sorted _
  · intro arr1 arr2 hp hk
    exact combineArrivals_perm hp hk

/-- Witness for C4 at two concrete source contents with a duplicate line. -/
theorem claim4_merge_dedup_sorted_witness :
    ∃ body,
      mkFinalBody (combineContents ["b\na\n".data, "a\n".data]) ("list".data) =
        Except.ok body ∧
      (∀ l, l ∈ splitlines body ↔
        (l ∈ splitlines (combineContents ["b\na\n".data, "a\n".data]) ∧
          strip l ≠ [])) ∧
      (splitlines body).Nodup ∧
      (splitlines body).Sorted (· ≤ ·) :=
  claim4_merge_dedup_sorted.1 ["b\na\n".data, "a\n".data] ("list".data)
    (by decide) (by decide)

/-- C5: for the `yaml` format the first line of the non-blank combined
content is preserved verbatim as the header; dedup and sort apply only to
the non-blank remaining lines, the final body being the header, a newline,
and the sorted unique remaining lines. -/
theorem claim5_yaml_header_preserved (content : Str)
    (h : strip content ≠ []) :
    ∃ header rest,
      splitlines content = header :: rest ∧
      mkFinalBody content ("yaml".data) =
        Except.ok (header ++ '\n' ::
          joinNL (pySortedSet (rest.filter fun l => !(strip l).isEmpty))) ∧
      splitlines (header ++ '\n' ::
          joinNL (pySortedSet (rest.filter fun l => !(strip l).isEmpty))) =
        header :: pySortedSet (rest.filter fun l => !(strip l).isEmpty) := by
  obtain ⟨header, rest, hsplit⟩ : ∃ hd tl, splitlines content = hd :: tl := by
    cases hs : splitlines content with
    | nil => exact absurd hs (splitlines_ne_nil (ne_nil_of_strip_ne_nil h))
    | cons a t => exact ⟨a, t, rfl⟩
  refine ⟨header, rest, hsplit, mkFinalBody_yaml h hsplit, ?_⟩
  rw [splitlines_append_lf
    (fun c hc => mem_splitlines_no_break header
      (hsplit ▸ List.mem_cons_self _ _) c hc)]
  rw [splitlines_joinNL_pySortedSet
    (fun l hl c hc => mem_splitlines_no_break l
      (hsplit ▸ List.mem_cons_of_mem _ hl) c hc)]

/-- Witness for C5: header `payload:` with a duplicated payload line. -/
theorem claim5_yaml_header_preserved_witness :
    ∃ header rest,
      splitlines ("payload:\nb\na\nb\n".data) = header :: rest ∧
      mkFinalBody ("payload:\nb\na\nb\n".data) ("yaml".data) =
        Except.ok (header ++ '\n' ::
          joinNL (pySortedSet (rest.filter fun l => !(strip l).isEmpty))) ∧
      splitlines (header ++ '\n' ::
          joinNL (pySortedSet (rest.filter fun l => !(strip l).isEmpty))) =
        header :: pySortedSet (rest.filter fun l => !(strip l).isEmpty) :=
  claim5_yaml_header_preserved ("payload:\nb\na\nb\n".data) (by decide)

/-- C6: the staged write goes to a temporary sibling renamed over the
staging path; after any attempt the staging path holds either the prior or
the new complete body (never a partial one), every failing attempt leaves
the prior content in place, and a failure during the write or the rename
removes the temporary file while the error propagates. -/
theorem claim6_atomic_staged_write :
    ∀ fs content fmt oc,
      (stagedAfter (write_processed_content fs content fmt oc) = fs.staged ∨
        ∃ body, mkFinalBody content fmt = Except.ok body ∧
          stagedAfter (write_processed_content fs content fmt oc) =
            some body) ∧
      (∀ fs2, write_processed_content fs content fmt oc = Except.error fs2 →
        fs2.staged = fs.staged) ∧
      (∀ body part, mkFinalBody content fmt = Except.ok body →
        write_processed_content fs content fmt (WriteOutcome.failWrite part) =
            Except.error { staged := fs.staged, tmp := none } ∧
          write_processed_content fs content fmt WriteOutcome.failReplace =
            Except.error { staged := fs.staged, tmp := none }) := by
  intro fs content fmt oc
  cases hb : mkFinalBody content fmt with
  | error msg =>
    refine ⟨Or.inl ?_, ?_, ?_⟩
    · simp [write_processed_content, stagedAfter, hb]
    · intro fs2 h2
      simp [write_processed_content, hb] at h2
      rw [← h2]
    · intro body part hbody
      cases hbody
  | ok body =>
    refine ⟨?_, ?_, ?_⟩
    · cases oc with
      | success =>
        exact Or.inr ⟨body, rfl, by simp [write_processed_content, stagedAfter, hb]⟩
      | failWrite part =>
        exact Or.inl (by simp [write_processed_content, stagedAfter, hb])
      | failReplace =>
        exact Or.inl (by simp [write_processed_content, stagedAfter, hb])
    · intro fs2 h2
      cases oc with
      | success => simp [write_processed_content, hb] at h2
      | failWrite part =>
        simp [write_processed_content, hb] at h2
        rw [← h2]
      | failReplace =>
        simp [write_processed_content, hb] at h2
        rw [← h2]
    · intro body2 part hbody
      cases hbody
      exact ⟨by simp [write_processed_content, hb], by simp [write_processed_content, hb]⟩

/-- Witness for C6: a failing `write_text` leaves the prior staged content
and no temporary file. -/
theorem claim6_atomic_staged_write_witness :
    write_processed_content ⟨some ("old".data), none⟩ ("b\na\n".data)
        ("list".data) (WriteOutcome.failWrite ("par".data)) =
      Except.error { staged := some ("old".data), tmp := none } :=
  ((claim6_atomic_staged_write ⟨some ("old".data), none⟩ ("b\na\n".data)
      ("list".data) (WriteOutcome.failWrite ("par".data))).2.2
    ("a\nb".data) ("par".data) (by rfl)).1

/-- C7: a non-zero converter exit code, a missing binary, or an empty
binary makes `_convert_to_mrs` report failure before any move, leaving the
staged text and both published output locations unchanged. -/
theorem claim7_convert_failure_frame :
    ∀ fs exitCode produced mv,
      exitCode ≠ 0 ∨ produced = none ∨ produced = some [] →
      (convert_to_mrs fs exitCode produced mv).1 = false ∧
      (convert_to_mrs fs exitCode produced mv).2.finalText = fs.finalText ∧
      (convert_to_mrs fs exitCode produced mv).2.finalMrs = fs.finalMrs ∧
      (convert_to_mrs fs exitCode produced mv).2.stagedText =
        fs.stagedText := by
  intro fs ec produced mv h
  cases hmp : fs.mihomoPresent with
  | false => simp [convert_to_mrs, hmp]
  | true =>
    rcases h with h | h | h
    · simp [convert_to_mrs, hmp, h]
    · subst h
      by_cases hec : ec = 0 <;> simp [convert_to_mrs, hmp, hec]
    · subst h
      by_cases hec : ec = 0 <;> simp [convert_to_mrs, hmp, hec]

/-- Witness for C7: exit code 1 with a non-empty produced binary still
fails and moves nothing. -/
theorem claim7_convert_failure_frame_witness :
    (convert_to_mrs ⟨true, some ("s".data), none, none, none⟩ 1
        (some ("x".data)) MoveOutcome.moved).1 = false ∧
    (convert_to_mrs ⟨true, some ("s".data), none, none, none⟩ 1
        (some ("x".data)) MoveOutcome.moved).2.finalText =
      (⟨true, some ("s".data), none, none, none⟩ : ConvFS).finalText ∧
    (convert_to_mrs ⟨true, some ("s".data), none, none, none⟩ 1
        (some ("x".data)) MoveOutcome.moved).2.finalMrs =
      (⟨true, some ("s".data), none, none, none⟩ : ConvFS).finalMrs ∧
    (convert_to_mrs ⟨true, some ("s".data), none, none, none⟩ 1
        (some ("x".data)) MoveOutcome.moved).2.stagedText =
      (⟨true, some ("s".data), none, none, none⟩ : ConvFS).stagedText :=
  claim7_convert_failure_frame ⟨true, some ("s".data), none, none, none⟩ 1
    (some ("x".data)) MoveOutcome.moved (Or.inl (by decide))

/-- Counterexample to C1 as stated: with two produced artifacts of which
exactly one validates (exists, size 1) and the other is empty (size 0), the
run exits non-zero instead of publishing, although at least one artifact
validated. -/
theorem claim1_counterexample :
    ("a".data) ∈ collectFiles [TaskResult.done ["a".data, "b".data]] ∧
    (fun q : Str => if q = ("a".data) then some 1 else some 0) ("a".data) =
      some 1 ∧
    runPipeline (fun q : Str => if q = ("a".data) then some 1 else some 0)
      [TaskResult.done ["a".data, "b".data]] = RunOutcome.exitNonzero := by
  refine ⟨by decide, by decide, by decide⟩

/-- C1 (amended): the publish step is invoked exactly when no task raised
an exception, at least one artifact path was produced, and every produced
artifact exists with positive size; in every other case the run exits
non-zero without publishing. -/
theorem claim1_publish_gate (fsSize : Str → Option Nat)
    (trs : List TaskResult) :
    runPipeline fsSize trs = RunOutcome.published ↔
      ((∀ r ∈ trs, r.isRaised = false) ∧
        collectFiles trs ≠ [] ∧
        ∀ p ∈ collectFiles trs, ∃ n, fsSize p = some n ∧ 0 < n) := by
  constructor
  · intro h
    unfold runPipeline at h
    by_cases hr : trs.any TaskResult.isRaised
    · rw [if_pos hr] at h
      cases h
    · rw [if_neg hr] at h
      by_cases hv : validate_generated_files fsSize (collectFiles trs) = true
      · refine ⟨?_, ?_, ?_⟩
        · intro r hrm
          by_contra hc
          exact hr (List.any_eq_true.mpr
            ⟨r, hrm, by revert hc; cases r.isRaised <;> simp⟩)
        · intro hnil
          unfold validate_generated_files at hv
          rw [if_pos (by simp [hnil])] at hv
          cases hv
        · intro p hp
          unfold validate_generated_files at hv
          by_cases he : (collectFiles trs).isEmpty
          · rw [if_pos he] at hv; cases hv
          · rw [if_neg he] at hv
            have hall := List.all_eq_true.mp hv p hp
            cases hfp : fsSize p with
            | none => rw [hfp] at hall; cases hall
            | some n =>
              rw [hfp] at hall
              exact ⟨n, rfl, of_decide_eq_true hall⟩
      · rw [if_neg hv] at h
        cases h
  · rintro ⟨h1, h2, h3⟩
    unfold runPipeline
    rw [if_neg, if_pos]
    · unfold validate_generated_files
      rw [if_neg (by simp [h2])]
      apply List.all_eq_true.mpr
      intro p hp
      obtain ⟨n, hn, hpos⟩ := h3 p hp
      rw [hn]
      exact decide_eq_true hpos
    · intro hany
      obtain ⟨r, hrm, hrr⟩ := List.any_eq_true.mp hany
      rw [h1 r hrm] at hrr
      cases hrr

/-- Witness for C1 (amended): one valid artifact publishes. -/
theorem claim1_publish_gate_witness :
    runPipeline (fun _ => some 1) [TaskResult.done ["a".data]] =
      RunOutcome.published :=
  (claim1_publish_gate (fun _ => some 1) [TaskResult.done ["a".data]]).mpr
    ⟨by decide, by decide, fun p _ => ⟨1, rfl, by decide⟩⟩

/-- Counterexample to C2 as stated: a task whose single source fetch fails
hard does not return `None` — `process_task` re-raises the exception — and
a raised task aborts the whole run even though a sibling task succeeded. -/
theorem claim2_counterexample :
    process_task ("t".data) ("list".data) [FetchOutcome.hardFail] true =
      TaskResult.raised TaskError.fetchFailed ∧
    process_task ("t".data) ("list".data) [FetchOutcome.hardFail] true ≠
      TaskResult.noArtifacts ∧
    runPipeline (fun _ => some 1)
      [TaskResult.raised TaskError.fetchFailed,
        TaskResult.done ["u.list".data, "u.mrs".data]] =
      RunOutcome.raisedOut := by
  refine ⟨by decide, by decide, by decide⟩

/-- C2 (amended): only a conversion failure collapses to `process_task`
returning `None` (which never aborts the run); a hard fetch failure or a
blank merge raise exceptions that escape `process_task`, and any raised
task aborts the run via `future.result()`. -/
theorem claim2_error_containment :
    (∀ name fmt outcomes convertOk, FetchOutcome.hardFail ∈ outcomes →
      process_task name fmt outcomes convertOk =
        TaskResult.raised TaskError.fetchFailed) ∧
    (∀ name fmt outcomes convertOk, FetchOutcome.hardFail ∉ outcomes →
      strip (combineContents (outcomes.map FetchOutcome.contentOf)) = [] →
      process_task name fmt outcomes convertOk =
        TaskResult.raised (TaskError.writeError ("内容为空".data))) ∧
    (∀ name fmt outcomes, FetchOutcome.hardFail ∉ outcomes →
      strip (combineContents (outcomes.map FetchOutcome.contentOf)) ≠ [] →
      process_task name fmt outcomes false = TaskResult.noArtifacts) ∧
    (∀ fsSize trs, (∀ r ∈ trs, r.isRaised = false) →
      runPipeline fsSize trs ≠ RunOutcome.raisedOut) ∧
    (∀ fsSize trs r, r ∈ trs → r.isRaised = true →
      runPipeline fsSize trs = RunOutcome.raisedOut) := by
  refine ⟨?_, ?_, ?_, ?_, ?_⟩
  · intro name fmt outcomes convertOk h
    exact process_task_of_hard h name fmt convertOk
  · intro name fmt outcomes convertOk h hblank
    rw [process_task_of_no_hard h, mkFinalBody_blank hblank]
  · intro name fmt outcomes h hne
    rw [process_task_of_no_hard h]
    obtain ⟨body, hbody⟩ := mkFinalBody_isOk fmt hne
    rw [hbody]
    rfl
  · intro fsSize trs h
    unfold runPipeline
    rw [if_neg]
    · by_cases hv : validate_generated_files fsSize (collectFiles trs) = true
      · rw [if_pos hv]; intro hh; cases hh
      · rw [if_neg hv]; intro hh; cases hh
    · intro hany
      obtain ⟨r, hrm, hrr⟩ := List.any_eq_true.mp hany
      rw [h r hrm] at hrr
      cases hrr
  · intro fsSize trs r hrm hrr
    unfold runPipeline
    rw [if_pos (List.any_eq_true.mpr ⟨r, hrm, hrr⟩)]

/-- Witness for C2 (amended): a failed conversion yields `None` for the
task while the run with that task still validates its sibling's files. -/
theorem claim2_error_containment_witness :
    process_task ("t".data) ("list".data) [FetchOutcome.fetched ("a\n".data)]
      false = TaskResult.noArtifacts :=
  claim2_error_containment.2.2.1 ("t".data) ("list".data)
    [FetchOutcome.fetched ("a\n".data)] (by decide) (by decide)

/-- Counterexample to C3 as stated: in a two-source task where source 0
fails hard and source 1 returned non-blank content, the task does not merge
the remaining source and proceed — it re-raises the fetch exception. -/
theorem claim3_counterexample :
    process_task ("t".data) ("list".data)
      [FetchOutcome.hardFail, FetchOutcome.fetched ("a\n".data)] true =
      TaskResult.raised TaskError.fetchFailed := by
  decide

/-- C3 (amended): a source that soft-fails (degrading to blank content)
does not prevent the task from merging the remaining sources — blank
contents drop out of the merge — and if all sources are blank the task
fails with the empty-content error; but a hard fetch failure (network or
timeout exhausting all retries) of any one source re-raises and aborts the
task even when other sources returned non-blank content. -/
theorem claim3_soft_failure_isolation :
    (∀ name fmt outcomes convertOk, FetchOutcome.hardFail ∉ outcomes →
      (∃ o ∈ outcomes, strip o.contentOf ≠ []) →
      process_task name fmt outcomes convertOk =
        (if convertOk then
          TaskResult.done [finalSourcePath name fmt, finalMrsPath name]
        else TaskResult.noArtifacts)) ∧
    (∀ c, strip c = [] → ∀ pre post,
      combineContents (pre ++ c :: post) = combineContents (pre ++ post)) ∧
    (∀ name fmt outcomes convertOk, FetchOutcome.hardFail ∉ outcomes →
      (∀ o ∈ outcomes, strip o.contentOf = []) →
      process_task name fmt outcomes convertOk =
        TaskResult.raised (TaskError.writeError ("内容为空".data))) ∧
    (∀ name fmt outcomes convertOk, FetchOutcome.hardFail ∈ outcomes →
      process_task name fmt outcomes convertOk =
        TaskResult.raised TaskError.fetchFailed) := by
  refine ⟨?_, ?_, ?_, ?_⟩
  · intro name fmt outcomes convertOk h hex
    obtain ⟨o, ho, hne⟩ := hex
    rw [process_task_of_no_hard h]
    obtain ⟨body, hbody⟩ := mkFinalBody_isOk fmt
      (combineContents_strip_ne (List.mem_map_of_mem FetchOutcome.contentOf ho)
        hne)
    rw [hbody]
  · intro c hc pre post
    exact combineContents_drop_blank hc pre post
  · intro name fmt outcomes convertOk h hall
    rw [process_task_of_no_hard h, mkFinalBody_blank]
    rw [combineContents_all_blank]
    · rfl
    · intro o ho
      obtain ⟨o0, ho0, rfl⟩ := List.mem_map.mp ho
      exact hall o0 ho0
  · intro name fmt outcomes convertOk h
    exact process_task_of_hard h name fmt convertOk

/-- Witness for C3 (amended): a soft-failed blank source alongside a
non-blank one still produces the task's artifacts. -/
theorem claim3_soft_failure_isolation_witness :
    process_task ("t".data) ("list".data)
      [FetchOutcome.fetched [], FetchOutcome.fetched ("a\n".data)] true =
      (if true then
        TaskResult.done
          [finalSourcePath ("t".data) ("list".data), finalMrsPath ("t".data)]
      else TaskResult.noArtifacts) :=
  claim3_soft_failure_isolation.1 ("t".data) ("list".data)
    [FetchOutcome.fetched [], FetchOutcome.fetched ("a\n".data)] true
    (by decide)
    ⟨FetchOutcome.fetched ("a\n".data), by decide, by decide⟩

end RuleList
